import Mathlib

/-!
Verification of the record-normalization and comment-aggregation pipeline of
`json_summarizer.py` against its specification.

The Python values that flow through the pipeline (parsed JSON) are embedded as
the inductive type `Val`; a Python `dict` is an association list that preserves
insertion order, which matches Python dict key-iteration order.  Python
exceptions (`KeyError`, `TypeError`, `AttributeError`, and failures of the
external summarization service) are embedded with `Except PyErr`.  Python
strings are Lean `String`s; `len`, slicing and `str.lower` act on code points,
embedded through the underlying character list.
-/

/-- Exception classes that the embedded code can raise. -/
inductive PyErr where
  | keyError : PyErr
  | typeError : PyErr
  | attributeError : PyErr
  | serviceError : PyErr
deriving DecidableEq, Repr

/-- A parsed JSON value: the shapes the program manipulates. -/
inductive Val where
  | vStr : String → Val
  | vInt : Int → Val
  | vList : List Val → Val
  | vDict : List (String × Val) → Val

/-- A dict as an association list (insertion order = iteration order). -/
abbrev Dict := List (String × Val)

/-- Python `len(s)`: the number of code points of `s`. -/
def pyLen (s : String) : Nat := s.data.length

/-- Python `s[:n]`: the first `n` code points of `s`. -/
def pySlice (s : String) (n : Nat) : String := String.mk (s.data.take n)

/-- Python `s.lower()` (ASCII case mapping). -/
def strLower (s : String) : String := String.mk (s.data.map Char.toLower)

/-- Python `d[k]` / `k in d` resolution: the first binding of `k` in `d`. -/
def lookupFirst (d : Dict) (k : String) : Option Val :=
  (d.find? (fun kv => kv.1 == k)).map (fun kv => kv.2)

/-- Python `d.get(k, dflt)`. -/
def dictGet (d : Dict) (k : String) (dflt : Val) : Val :=
  (lookupFirst d k).getD dflt

/-- Python `'\n'.join(texts)`. -/
def joinNL : List String → String
  | [] => ""
  | [s] => s
  | s :: rest => s ++ "\n" ++ joinNL rest

/-- Embeds `item['Component'].lower()` (json_summarizer.py lines 43 and 110):
`TypeError` when `item` is not a dict, `KeyError` when the exact key
`'Component'` is absent, `AttributeError` when its value is not a string. -/
def getComponentLower (item : Val) : Except PyErr String :=
  match item with
  | .vDict d =>
    match lookupFirst d "Component" with
    | some (.vStr s) => .ok (strLower s)
    | some _ => .error .attributeError
    | none => .error .keyError
  | _ => .error .typeError

/-- Iterating a Python value with `for`: lists yield their elements, strings
their one-character substrings, dicts their keys; integers are not iterable. -/
def iterElems (v : Val) : Except PyErr (List Val) :=
  match v with
  | .vList l => .ok l
  | .vStr s => .ok (s.data.map (fun c => Val.vStr (String.mk [c])))
  | .vDict d => .ok (d.map (fun kv => Val.vStr kv.1))
  | .vInt _ => .error .typeError

/-- Embeds `comment_obj.get('comment', '')` (line 45): `AttributeError` when
`comment_obj` is not a dict, else the stored value or the default `''`. -/
def getCommentDefault (v : Val) : Except PyErr Val :=
  match v with
  | .vDict d => .ok (dictGet d "comment" (.vStr ""))
  | _ => .error .attributeError

/-- Lines 44–45 for one matching record: iterate `item.get('Comment', [])`
and collect each entry's `comment` value. -/
def commentTexts (item : Val) : Except PyErr (List Val) :=
  match item with
  | .vDict d => do
    let elems ← iterElems (dictGet d "Comment" (.vList []))
    elems.mapM getCommentDefault
  | _ => .error .typeError

/-- Lines 41–45: the `aggregated_comments` accumulation loop. -/
def collectComments : List Val → String → Except PyErr (List Val)
  | [], _ => .ok []
  | item :: rest, sel =>
    getComponentLower item >>= fun comp =>
    (if comp = strLower sel then commentTexts item else .ok []) >>= fun here =>
    collectComments rest sel >>= fun there =>
    .ok (here ++ there)

/-- A collected comment value as a string, as `'\n'.join` requires. -/
def valStr : Val → Option String
  | .vStr s => some s
  | _ => none

/-- Embeds the join of line 49: `TypeError` when an element
is not a string. -/
def joinComments (l : List Val) : Except PyErr String :=
  match l.mapM valStr with
  | some texts => .ok (joinNL texts)
  | none => .error .typeError

/-- Lines 41–52: the payload handed to the summarizer, `none` when the
accumulated comment list is empty (line 47's falsy branch). -/
def buildPayload (rs : List Val) (sel extra : String) :
    Except PyErr (Option String) := do
  let agg ← collectComments rs sel
  if agg.isEmpty then
    .ok none
  else do
    let ct ← joinComments agg
    .ok (some (ct ++ "\n\n" ++ extra))

/-- The `{'Component': ..., 'Analysis': ...}` dictionary of lines 57–60. -/
structure AggResult where
  Component : String
  Analysis : String
deriving DecidableEq, Repr

/-- Lines 54–62 given the payload choice: no payload means the `else` branch
returning `None`; a payload is handed to the summarizer `f` and wrapped into
the result dictionary of lines 57–60. -/
def afterPayload (sel : String) (f : String → Except PyErr String) :
    Option String → Except PyErr (Option AggResult)
  | none => .ok none
  | some p => f p >>= fun a => .ok (some ⟨sel, a⟩)

/-- The body of the `try` block of `process_selected_component`
(lines 40–62), with the summarization capability passed as `f`. -/
def process_body (rs : List Val) (sel extra : String)
    (f : String → Except PyErr String) : Except PyErr (Option AggResult) :=
  buildPayload rs sel extra >>= afterPayload sel f

/-- The `except` clause of lines 64–66: any exception becomes `None`. -/
def exceptToNone : Except PyErr (Option AggResult) → Option AggResult
  | .error _ => none
  | .ok r => r

/-- Embeds `process_selected_component` (lines 37–66). -/
def process_selected_component (rs : List Val) (sel extra : String)
    (f : String → Except PyErr String) : Option AggResult :=
  exceptToNone (process_body rs sel extra f)

/-- The list comprehension of line 110 (same membership test as line 43):
`[item for item in json_data if item['Component'].lower() == selected.lower()]`. -/
def filter_by_component : List Val → String → Except PyErr (List Val)
  | [], _ => .ok []
  | item :: rest, sel => do
    let comp ← getComponentLower item
    let r ← filter_by_component rest sel
    .ok (if comp = strLower sel then item :: r else r)

/-- Python's `<=` on strings: lexicographic comparison by code point. -/
def strListLe : List Char → List Char → Bool
  | [], _ => true
  | _ :: _, [] => false
  | a :: as, b :: bs =>
    if a < b then true else if b < a then false else strListLe as bs

/-- Python's `a <= b` on strings, on the embedded representation. -/
def pyStrLe (a b : String) : Bool := strListLe a.data b.data

/-- Line 102: `sorted(list(set(item['Component'].lower() for item in json_data)))`.
`set` followed by `sorted` yields the duplicate-free list of the collected
names in ascending lexicographic order, which is what sorting the
deduplicated list produces (the sorted duplicate-free sequence of a given
set of strings is unique, so the embedding does not depend on hash order). -/
def distinct_components (rs : List Val) : Except PyErr (List String) := do
  let names ← rs.mapM getComponentLower
  .ok (List.insertionSort (fun a b => pyStrLe a b = true) names.dedup)

/-- Embeds `normalize_field_name` (lines 68–76): exact key first, then the first
case-insensitive match in iteration order, else the sentinel `'N/A'`. -/
def normalize_field_name (field_name : String) (data : Dict) : Val :=
  match lookupFirst data field_name with
  | some v => v
  | none =>
    match data.find? (fun kv => strLower kv.1 == strLower field_name) with
    | some kv => kv.2
    | none => .vStr "N/A"

/-- Line 82: `c['comment'].replace('\n', ' ')` — every newline becomes one space. -/
def collapseNL (s : String) : String :=
  String.mk (s.data.map (fun c => if c = '\n' then ' ' else c))

/-- Lines 84–85: texts longer than 100 code points become their first 97
code points followed by `"..."`. -/
def truncateComment (s : String) : String :=
  if pyLen s > 100 then pySlice s 97 ++ "..." else s

/-- Lines 82–86 on the looked-up `comment` value: `KeyError` when the key
was absent, `AttributeError` when its value is not a string, otherwise the
collapsed, truncated text. -/
def commentLineOf : Option Val → Except PyErr String
  | some (.vStr s) => .ok (truncateComment (collapseNL s))
  | some _ => .error .attributeError
  | none => .error .keyError

/-- Lines 82–86 for one comment entry `c`: `TypeError` when `c` is not a
dict, else `commentLineOf` on its `comment` binding. -/
def commentLine (v : Val) : Except PyErr String :=
  match v with
  | .vDict d => commentLineOf (lookupFirst d "comment")
  | _ => .error .typeError

/-- Embeds the numbered-line formatting of line 86, with the index counting
from the given start. -/
def numberLines (i : Nat) : List String → List String
  | [] => []
  | t :: rest => (toString i ++ ". " ++ t) :: numberLines (i + 1) rest

/-- Embeds `format_comments` (lines 78–87). -/
def format_comments (comments : List Val) : Except PyErr String := do
  let lines ← comments.mapM commentLine
  .ok (joinNL (numberLines 1 lines))

/-- The membership test of lines 43 and 110, as a Boolean predicate. -/
def matchesComponent (sel : String) (item : Val) : Bool :=
  match getComponentLower item with
  | .ok c => c == strLower sel
  | .error _ => false

/-- The value of the first key of `data` matching `t` case-insensitively,
or the sentinel. -/
def ciFirst (t : String) (data : Dict) : Val :=
  match data.find? (fun kv => strLower kv.1 == t) with
  | some kv => kv.2
  | none => .vStr "N/A"

/-- A string value, if that is what the lookup produced. -/
def commentRawOf : Option Val → Option String
  | some (.vStr s) => some s
  | some _ => none
  | none => none

/-- A well-formed comment entry's raw text: a dict whose `comment` key holds
a string. -/
def commentRaw (v : Val) : Option String :=
  match v with
  | .vDict d => commentRawOf (lookupFirst d "comment")
  | _ => none

/-- The CommentFormatter contract as the spec states it, over the raw texts:
one line per comment in input order, 1-indexed, of the form
`"<index>. <text>"` with newlines collapsed to single spaces and the
100/97-character truncation, lines joined by newline separators, empty
input giving the empty string. -/
def format_described (texts : List String) : String :=
  joinNL ((texts.enum).map
    (fun p => toString (p.1 + 1) ++ ". " ++ truncateComment (collapseNL p.2)))

/-! ### Concrete data used by witnesses and counterexamples -/

/-- Sample records: one record of component `Auth` with two comments. -/
def rsAuth : List Val :=
  [.vDict [("Component", .vStr "Auth"),
           ("Comment", .vList [.vDict [("comment", .vStr "line1")],
                               .vDict [("comment", .vStr "line2")]])]]

/-- A record carrying its component under the lower-case key `component`:
its resolved component field (case-insensitive lookup) is `"auth"`. -/
def recLowerKey : Val := .vDict [("component", .vStr "auth")]

/-- Two dicts with exact `Component` keys. -/
def rsTwoComp : List Val :=
  [.vDict [("Component", .vStr "Auth")], .vDict [("Component", .vStr "UI")]]

/-- A record whose single comment entry lacks the `comment` key. -/
def recEntryNoKey : Val :=
  .vDict [("Component", .vStr "a"),
          ("Comment", .vList [.vDict [("note", .vStr "hi")]])]

/-- A record whose `Comment` field is not a sequence. -/
def recBadCommentField : Val :=
  .vDict [("Component", .vStr "a"), ("Comment", .vInt 0)]

/-- A 150-character non-newline text. -/
def s150 : String := String.mk (List.replicate 150 'a')

/-- Two case-variants of `ui` and one `Auth`. -/
def rsThree : List Val :=
  [.vDict [("Component", .vStr "UI")], .vDict [("Component", .vStr "Auth")],
   .vDict [("Component", .vStr "ui")]]

/-! ### Reduction lemmas for the embedding -/

theorem ok_bind {α β : Type} (a : α) (f : α → Except PyErr β) :
    (Except.ok a >>= f : Except PyErr β) = f a := rfl

theorem error_bind {α β : Type} (e : PyErr) (f : α → Except PyErr β) :
    (Except.error e >>= f : Except PyErr β) = Except.error e := rfl

theorem exceptToNone_error (e : PyErr) :
    exceptToNone (.error e) = none := rfl

theorem exceptToNone_ok (r : Option AggResult) :
    exceptToNone (.ok r) = r := rfl

/-- A summarizer that always fails yields `None` on every input, like every
other exception of the body. -/
theorem process_none_of_failing_summarizer (rs : List Val) (sel extra : String)
    (f : String → Except PyErr String) (hf : ∀ p, ∃ e, f p = .error e) :
    process_selected_component rs sel extra f = none := by
  unfold process_selected_component process_body
  cases hb : buildPayload rs sel extra with
  | error e => rw [error_bind, exceptToNone_error]
  | ok o =>
    rw [ok_bind]
    cases o with
    | none => rfl
    | some p =>
      obtain ⟨e, he⟩ := hf p
      show exceptToNone (f p >>= fun a => .ok (some ⟨sel, a⟩)) = none
      rw [he, error_bind, exceptToNone_error]

/-! ### C1 -/

/-- C1: when the matching comment texts, collected in record order with
comments in order within each record, are exactly `l1` and `l2`, aggregation
builds the payload `l1 ++ "\n" ++ l2 ++ "\n\n" ++ extra` (the texts joined by
a single newline, then a blank line, then the extra text), and the
summarization capability is invoked on exactly that payload. -/
theorem C1_payload_two_lines (rs : List Val) (sel extra l1 l2 : String)
    (f : String → Except PyErr String)
    (h : collectComments rs sel = .ok [.vStr l1, .vStr l2]) :
    buildPayload rs sel extra = .ok (some (l1 ++ "\n" ++ l2 ++ "\n\n" ++ extra)) ∧
    process_selected_component rs sel extra f =
      (match f (l1 ++ "\n" ++ l2 ++ "\n\n" ++ extra) with
       | .ok t => some ⟨sel, t⟩
       | .error _ => none) := by
  have hp : buildPayload rs sel extra =
      .ok (some (l1 ++ "\n" ++ l2 ++ "\n\n" ++ extra)) := by
    unfold buildPayload
    rw [h, ok_bind]
    rfl
  refine ⟨hp, ?_⟩
  unfold process_selected_component process_body
  rw [hp, ok_bind]
  show exceptToNone
      ((f (l1 ++ "\n" ++ l2 ++ "\n\n" ++ extra)) >>= fun a => .ok (some ⟨sel, a⟩)) = _
  cases f (l1 ++ "\n" ++ l2 ++ "\n\n" ++ extra) with
  | error e => rw [error_bind, exceptToNone_error]
  | ok t => rw [ok_bind, exceptToNone_ok]

/-- C1 witness: the spec's own example, on a concrete record set. -/
theorem C1_payload_two_lines_witness :
    buildPayload rsAuth "auth" "focus on X" = .ok (some "line1\nline2\n\nfocus on X") ∧
    process_selected_component rsAuth "auth" "focus on X" (fun _ => .ok "S") =
      some ⟨"auth", "S"⟩ := by
  have h := C1_payload_two_lines rsAuth "auth" "focus on X" "line1" "line2"
    (fun _ => .ok "S") rfl
  exact ⟨h.1.trans rfl, h.2.trans rfl⟩

/-! ### C3 -/

/-- C3: a selection whose accumulated comment sequence is empty produces the
defined no-match outcome: the payload is `none`, no error is raised, and the
summarization capability is never consulted (the result is `None` for every
summarizer `f`). -/
theorem C3_empty_collect_returns_none (rs : List Val) (sel extra : String)
    (h : collectComments rs sel = .ok []) :
    buildPayload rs sel extra = .ok none ∧
    ∀ f : String → Except PyErr String,
      process_selected_component rs sel extra f = none := by
  have hp : buildPayload rs sel extra = .ok none := by
    unfold buildPayload
    rw [h, ok_bind]
    rfl
  refine ⟨hp, fun f => ?_⟩
  unfold process_selected_component process_body
  rw [hp, ok_bind]
  rfl

/-- C3 witness: a component with no matching comments on a concrete record set. -/
theorem C3_empty_collect_returns_none_witness :
    process_selected_component rsAuth "ui" "x" (fun _ => .ok "S") = none :=
  (C3_empty_collect_returns_none rsAuth "ui" "x" rfl).2 _

/-! ### C10 -/

/-- C10: `process_selected_component` is total — it returns the wrapped
result of its body, `none` both when the body raised any exception and when
the body produced the empty outcome, so the `None` return value cannot
distinguish a failure from the no-data case; an always-failing summarizer
also yields exactly `none`. -/
theorem C10_never_raises_error_is_none (rs : List Val) (sel extra : String)
    (f : String → Except PyErr String) :
    (∀ e, process_body rs sel extra f = .error e →
        process_selected_component rs sel extra f = none) ∧
    (process_body rs sel extra f = .ok none →
        process_selected_component rs sel extra f = none) ∧
    (∀ r, process_body rs sel extra f = .ok (some r) →
        process_selected_component rs sel extra f = some r) ∧
    process_selected_component rs sel extra
      (fun _ => .error .serviceError) = none := by
  refine ⟨fun e he => ?_, fun h0 => ?_, fun r hr => ?_, ?_⟩
  · unfold process_selected_component
    rw [he, exceptToNone_error]
  · unfold process_selected_component
    rw [h0, exceptToNone_ok]
  · unfold process_selected_component
    rw [hr, exceptToNone_ok]
  · exact process_none_of_failing_summarizer rs sel extra _
      (fun p => ⟨.serviceError, rfl⟩)

/-- C10 witness: a body that raises (a non-dict record) returns `None`. -/
theorem C10_never_raises_error_is_none_witness :
    process_body [Val.vInt 0] "a" "x" (fun _ => .ok "S") = .error .typeError ∧
    process_selected_component [Val.vInt 0] "a" "x" (fun _ => .ok "S") = none := by
  refine ⟨rfl, ?_⟩
  exact (C10_never_raises_error_is_none [Val.vInt 0] "a" "x" (fun _ => .ok "S")).1
    .typeError rfl

/-! ### C2 -/

/-- C2 counterexample: the claim says the filter resolves the component field
case-insensitively, so `recLowerKey` (resolved component `"auth"`, confirmed
by `normalize_field_name` below) should be returned for the name `"auth"`;
the code instead looks up the exact key `'Component'` and raises `KeyError`. -/
theorem C2_filter_counterexample :
    normalize_field_name "component" [("component", Val.vStr "auth")] =
      .vStr "auth" ∧
    filter_by_component [recLowerKey] "auth" = .error .keyError ∧
    filter_by_component [recLowerKey] "auth" ≠ .ok [recLowerKey] := by
  refine ⟨rfl, rfl, fun hc => ?_⟩
  have h1 : filter_by_component [recLowerKey] "auth" = .error .keyError := rfl
  rw [h1] at hc
  exact Except.noConfusion hc

/-- C2 amended: provided every record is a dict whose exact key `'Component'`
holds a string (so that `item['Component'].lower()` raises nothing), the
filter returns exactly the order-preserving subsequence of records whose
`Component` value compares case-insensitively equal to the selected name. -/
theorem C2_filter_amended (rs : List Val) (sel : String)
    (h : ∀ item ∈ rs, ∃ s, getComponentLower item = .ok s) :
    filter_by_component rs sel = .ok (rs.filter (matchesComponent sel)) ∧
    (rs.filter (matchesComponent sel)).Sublist rs ∧
    ∀ item ∈ rs.filter (matchesComponent sel),
      getComponentLower item = .ok (strLower sel) := by
  refine ⟨?_, List.filter_sublist rs, fun item hm => ?_⟩
  · induction rs with
    | nil => rfl
    | cons it rest ih =>
      obtain ⟨s, hs⟩ := h it (List.mem_cons_self it rest)
      have hrest := ih (fun x hx => h x (List.mem_cons_of_mem it hx))
      unfold filter_by_component
      rw [hs, ok_bind, hrest, ok_bind, List.filter_cons]
      by_cases hcase : s = strLower sel
      · have hmt : matchesComponent sel it = true := by
          unfold matchesComponent
          rw [hs, hcase]
          exact beq_self_eq_true (strLower sel)
        rw [hmt, if_pos hcase, if_pos rfl]
      · have hmf : matchesComponent sel it = false := by
          unfold matchesComponent
          rw [hs]
          exact beq_eq_false_iff_ne.mpr hcase
        rw [hmf, if_neg hcase, if_neg Bool.false_ne_true]
  · have hmm := List.of_mem_filter hm
    unfold matchesComponent at hmm
    cases hg : getComponentLower item with
    | error e => rw [hg] at hmm; exact Bool.noConfusion hmm
    | ok c =>
      rw [hg] at hmm
      rw [eq_of_beq hmm]

/-- C2 amended witness: filtering `rsTwoComp` by `"AUTH"` keeps exactly the
`Auth` record, in place. -/
theorem C2_filter_amended_witness :
    filter_by_component rsTwoComp "AUTH" =
      .ok [.vDict [("Component", .vStr "Auth")]] := by
  have h := C2_filter_amended rsTwoComp "AUTH" (by
    intro item him
    rcases him with _ | ⟨_, him⟩
    · exact ⟨"auth", rfl⟩
    · rcases him with _ | ⟨_, him⟩
      · exact ⟨"ui", rfl⟩
      · cases him)
  exact h.1.trans rfl

/-! ### C4 -/

/-- C4 counterexample: adding a record with no component field to a record
set whose aggregation succeeds makes the whole aggregation return `None` —
the record is not skipped, and its presence does turn the aggregation of the
other records into a failure. -/
theorem C4_not_skipped_counterexample :
    process_selected_component rsAuth "auth" "x" (fun _ => .ok "S") =
      some ⟨"auth", "S"⟩ ∧
    process_selected_component (rsAuth ++ [Val.vDict []]) "auth" "x"
      (fun _ => .ok "S") = none ∧
    collectComments (rsAuth ++ [Val.vDict []]) "auth" = .error .keyError :=
  ⟨rfl, rfl, rfl⟩

/-- If any record of the list fails the component lookup, the accumulation
loop raises instead of skipping it. -/
theorem collectComments_error_of_bad_record (rs : List Val) (sel : String)
    (h : ∃ item ∈ rs, ∃ e, getComponentLower item = .error e) :
    ∃ e, collectComments rs sel = .error e := by
  induction rs with
  | nil => obtain ⟨item, him, _⟩ := h; cases him
  | cons it rest ih =>
    cases hg : getComponentLower it with
    | error e =>
      refine ⟨e, ?_⟩
      unfold collectComments
      rw [hg, error_bind]
    | ok c =>
      have hrest : ∃ item ∈ rest, ∃ e, getComponentLower item = .error e := by
        obtain ⟨item, him, e, he⟩ := h
        rcases him with _ | ⟨_, him⟩
        · rw [hg] at he; exact Except.noConfusion he
        · exact ⟨item, him, e, he⟩
      cases hh : (if c = strLower sel then commentTexts it else .ok []) with
      | error e =>
        refine ⟨e, ?_⟩
        unfold collectComments
        rw [hg, ok_bind, hh, error_bind]
      | ok here =>
        obtain ⟨e, hrec⟩ := ih hrest
        refine ⟨e, ?_⟩
        unfold collectComments
        rw [hg, ok_bind, hh, ok_bind, hrec, error_bind]

/-- C4 amended: a record whose component field is absent or non-string is
not skipped — its presence makes the accumulation raise, so the whole
aggregation returns the `None` failure outcome regardless of what the other
records would have contributed. -/
theorem C4_bad_record_fails_all (rs : List Val) (sel extra : String)
    (f : String → Except PyErr String)
    (h : ∃ item ∈ rs, ∃ e, getComponentLower item = .error e) :
    (∃ e, collectComments rs sel = .error e) ∧
    process_selected_component rs sel extra f = none := by
  obtain ⟨e, hc⟩ := collectComments_error_of_bad_record rs sel h
  refine ⟨⟨e, hc⟩, ?_⟩
  unfold process_selected_component process_body buildPayload
  rw [hc, error_bind, error_bind]
  rfl

/-- C4 amended witness: one absent-component record poisons a concrete set
that otherwise aggregates successfully. -/
theorem C4_bad_record_fails_all_witness :
    process_selected_component (rsAuth ++ [Val.vDict []]) "auth" "x"
      (fun _ => .ok "S") = none :=
  (C4_bad_record_fails_all (rsAuth ++ [Val.vDict []]) "auth" "x" (fun _ => .ok "S")
    ⟨Val.vDict [], List.mem_append_right rsAuth (List.mem_singleton_self _),
     .keyError, rfl⟩).2

/-! ### C5 -/

/-- C5 counterexample: a comment entry without the `comment` key is silently
accepted as the empty string — the aggregation succeeds with no validation
report — while a non-iterable `Comment` field produces `None`, the very same
value a summarization failure produces, so the two failure classes are
merged, not distinct. -/
theorem C5_validation_counterexample :
    buildPayload [recEntryNoKey] "a" "extra" = .ok (some "\n\nextra") ∧
    process_selected_component [recEntryNoKey] "a" "extra" (fun _ => .ok "S") =
      some ⟨"a", "S"⟩ ∧
    process_selected_component [recBadCommentField] "a" "extra"
      (fun _ => .ok "S") = none ∧
    process_selected_component rsAuth "auth" "extra"
      (fun _ => .error .serviceError) = none :=
  ⟨rfl, rfl, rfl, rfl⟩

/-- C5 amended: an entry lacking the `comment` key is silently accepted as
`''`; any exception of the body — a validation failure among them — and a
failing summarization capability all collapse to the same `None` result, so
the two failure classes are reported identically, not separately. -/
theorem C5_validation_amended :
    (∀ d : Dict, lookupFirst d "comment" = none →
        getCommentDefault (.vDict d) = .ok (.vStr "")) ∧
    (∀ (rs : List Val) (sel extra : String) (f : String → Except PyErr String)
        (e : PyErr), process_body rs sel extra f = .error e →
        process_selected_component rs sel extra f = none) ∧
    (∀ (rs : List Val) (sel extra : String) (f : String → Except PyErr String),
        (∀ p, ∃ e, f p = .error e) →
        process_selected_component rs sel extra f = none) := by
  refine ⟨fun d hd => ?_, fun rs sel extra f e he => ?_,
    process_none_of_failing_summarizer⟩
  · show Except.ok ((lookupFirst d "comment").getD (Val.vStr "")) =
      Except.ok (Val.vStr "")
    rw [hd]
    rfl
  · unfold process_selected_component
    rw [he, exceptToNone_error]

/-- C5 amended witness: the silent default on a concrete keyless entry, and
the `None` collapse on a concrete malformed `Comment` field. -/
theorem C5_validation_amended_witness :
    getCommentDefault (.vDict [("note", Val.vStr "hi")]) = .ok (.vStr "") ∧
    process_selected_component [recBadCommentField] "a" "extra"
      (fun _ => .ok "S") = none := by
  have h := C5_validation_amended
  exact ⟨h.1 [("note", Val.vStr "hi")] rfl,
    h.2.1 [recBadCommentField] "a" "extra" (fun _ => .ok "S") .typeError rfl⟩

/-! ### C8 -/

/-- The result of `find?` only depends on the predicate's values on the
list's members. -/
theorem find?_congr_mem {α : Type} (l : List α) (p q : α → Bool)
    (h : ∀ a ∈ l, p a = q a) : l.find? p = l.find? q := by
  induction l with
  | nil => rfl
  | cons a t ih =>
    have hpa := h a (List.mem_cons_self a t)
    cases hq : q a with
    | true =>
      rw [List.find?_cons_of_pos t (hpa.trans hq), List.find?_cons_of_pos t hq]
    | false =>
      rw [List.find?_cons_of_neg t (by rw [hpa, hq]; exact Bool.false_ne_true),
        List.find?_cons_of_neg t (by rw [hq]; exact Bool.false_ne_true),
        ih (fun b hb => h b (List.mem_cons_of_mem a hb))]

/-- When no two keys of `data` collide case-insensitively, the exact-first
lookup of `normalize_field_name` coincides with the plain first
case-insensitive scan, which depends on the queried name only through its
lower-casing. -/
theorem normalize_field_name_eq_ciFirst (f : String) (data : Dict)
    (U : ∀ p ∈ data, ∀ q ∈ data, strLower p.1 = strLower q.1 → p.1 = q.1) :
    normalize_field_name f data = ciFirst (strLower f) data := by
  cases hx : lookupFirst data f with
  | none =>
    unfold normalize_field_name ciFirst
    rw [hx]
  | some v =>
    unfold lookupFirst at hx
    cases hf : data.find? (fun kv => kv.1 == f) with
    | none =>
      rw [hf] at hx
      exact Option.noConfusion hx
    | some kv0 =>
      rw [hf] at hx
      have hv : kv0.2 = v := Option.some.inj hx
      have hk0mem : kv0 ∈ data := List.mem_of_find?_eq_some hf
      have hbeq : (kv0.1 == f) = true :=
        @List.find?_some (String × Val) (fun kv => kv.1 == f) kv0 data hf
      have hk0 : kv0.1 = f := eq_of_beq hbeq
      have hcong : data.find? (fun kv => strLower kv.1 == strLower f) =
          data.find? (fun kv => kv.1 == f) := by
        apply find?_congr_mem
        intro kv hkv
        by_cases he : kv.1 = f
        · rw [he]
          exact (beq_self_eq_true (strLower f)).trans (beq_self_eq_true f).symm
        · have h1 : (kv.1 == f) = false := beq_eq_false_iff_ne.mpr he
          have h2 : (strLower kv.1 == strLower f) = false := by
            apply beq_eq_false_iff_ne.mpr
            intro hsl
            exact he ((U kv hkv kv0 hk0mem (by rw [hk0]; exact hsl)).trans hk0)
          rw [h1, h2]
      have hlk : lookupFirst data f = some v := by
        unfold lookupFirst
        rw [hf]
        exact hx
      unfold normalize_field_name ciFirst
      rw [hlk, hcong, hf]
      exact hv.symm

/-- C8 counterexample: a record holding both `Component` and `component`
keys (legal in a Python dict) resolves `"component"` to the second value but
`"COMPONENT"` to the first, so the claimed three-way equality fails. -/
theorem C8_resolve_counterexample :
    normalize_field_name "component"
      [("Component", Val.vStr "a"), ("component", Val.vStr "b")] = .vStr "b" ∧
    normalize_field_name "COMPONENT"
      [("Component", Val.vStr "a"), ("component", Val.vStr "b")] = .vStr "a" ∧
    normalize_field_name "component"
        [("Component", Val.vStr "a"), ("component", Val.vStr "b")] ≠
      normalize_field_name "COMPONENT"
        [("Component", Val.vStr "a"), ("component", Val.vStr "b")] := by
  refine ⟨rfl, rfl, fun h => ?_⟩
  have h1 : normalize_field_name "component"
      [("Component", Val.vStr "a"), ("component", Val.vStr "b")] = .vStr "b" := rfl
  have h2 : normalize_field_name "COMPONENT"
      [("Component", Val.vStr "a"), ("component", Val.vStr "b")] = .vStr "a" := rfl
  rw [h1, h2] at h
  injection h with h3
  exact absurd h3 (by decide)

/-- C8 amended: `resolve` returns the exactly matching key's value first, then
the first case-insensitive match, then the sentinel `"N/A"` (it is total, so
it never throws); and the case-insensitivity equation
`resolve("component") = resolve("COMPONENT") = resolve("Component")` holds for
every record in which no two distinct keys collide case-insensitively — the
collision case being the counterexample above. -/
theorem C8_resolve_amended :
    (∀ (fn : String) (data : Dict) (v : Val), lookupFirst data fn = some v →
        normalize_field_name fn data = v) ∧
    (∀ (fn : String) (data : Dict) (kv : String × Val),
        lookupFirst data fn = none →
        data.find? (fun kv2 => strLower kv2.1 == strLower fn) = some kv →
        normalize_field_name fn data = kv.2) ∧
    (∀ (fn : String) (data : Dict), lookupFirst data fn = none →
        data.find? (fun kv2 => strLower kv2.1 == strLower fn) = none →
        normalize_field_name fn data = .vStr "N/A") ∧
    (∀ data : Dict,
        (∀ p ∈ data, ∀ q ∈ data, strLower p.1 = strLower q.1 → p.1 = q.1) →
        normalize_field_name "component" data =
          normalize_field_name "COMPONENT" data ∧
        normalize_field_name "Component" data =
          normalize_field_name "component" data) := by
  refine ⟨fun fn data v h => ?_, fun fn data kv h1 h2 => ?_,
    fun fn data h1 h2 => ?_, fun data U => ?_⟩
  · unfold normalize_field_name
    rw [h]
  · unfold normalize_field_name
    rw [h1, h2]
  · unfold normalize_field_name
    rw [h1, h2]
  · constructor
    · rw [normalize_field_name_eq_ciFirst "component" data U,
        normalize_field_name_eq_ciFirst "COMPONENT" data U]
      rfl
    · rw [normalize_field_name_eq_ciFirst "Component" data U,
        normalize_field_name_eq_ciFirst "component" data U]
      rfl

/-- C8 amended witness: on a single-key record the three spellings resolve
identically, to the stored value. -/
theorem C8_resolve_amended_witness :
    normalize_field_name "component" [("Component", Val.vStr "x")] =
      normalize_field_name "COMPONENT" [("Component", Val.vStr "x")] ∧
    normalize_field_name "component" [("Component", Val.vStr "x")] =
      .vStr "x" := by
  have h := C8_resolve_amended.2.2.2 [("Component", Val.vStr "x")] (by
    intro p hp q hq hpq
    obtain rfl := List.mem_singleton.mp hp
    obtain rfl := List.mem_singleton.mp hq
    rfl)
  exact ⟨h.1, rfl⟩

/-! ### C6 -/

/-- Numbering lines starting at `k + 1` is enumeration from `k`. -/
theorem numberLines_enumFrom (k : Nat) (l : List String) :
    numberLines (k + 1) (l.map (fun t => truncateComment (collapseNL t))) =
      (List.enumFrom k l).map
        (fun p => toString (p.1 + 1) ++ ". " ++ truncateComment (collapseNL p.2)) := by
  induction l generalizing k with
  | nil => rfl
  | cons t rest ih =>
    show (toString (k + 1) ++ ". " ++ truncateComment (collapseNL t)) ::
        numberLines (k + 1 + 1) (rest.map (fun t => truncateComment (collapseNL t))) =
      (toString (k + 1) ++ ". " ++ truncateComment (collapseNL t)) ::
        (List.enumFrom (k + 1) rest).map
          (fun p => toString (p.1 + 1) ++ ". " ++ truncateComment (collapseNL p.2))
    rw [ih (k + 1)]

/-- Well-formed entries make `commentLine` succeed with the processed text. -/
theorem commentLine_of_raw (c : Val) (t : String) (hc : commentRaw c = some t) :
    commentLine c = .ok (truncateComment (collapseNL t)) := by
  cases c with
  | vStr s => exact Option.noConfusion hc
  | vInt n => exact Option.noConfusion hc
  | vList l => exact Option.noConfusion hc
  | vDict d =>
    have hc' : commentRawOf (lookupFirst d "comment") = some t := hc
    show commentLineOf (lookupFirst d "comment") = .ok (truncateComment (collapseNL t))
    cases hl : lookupFirst d "comment" with
    | none => rw [hl] at hc'; exact Option.noConfusion hc'
    | some v =>
      rw [hl] at hc'
      cases v with
      | vStr s =>
        have hst : s = t := Option.some.inj hc'
        rw [hst] at hc' ⊢
        rfl
      | vInt n => exact Option.noConfusion hc'
      | vList l => exact Option.noConfusion hc'
      | vDict d2 => exact Option.noConfusion hc'

/-- Mapping `commentLine` over well-formed entries processes their texts. -/
theorem mapM_commentLine_of_raw (cs : List Val) (texts : List String)
    (h : cs.mapM commentRaw = some texts) :
    cs.mapM commentLine = .ok (texts.map (fun t => truncateComment (collapseNL t))) := by
  induction cs generalizing texts with
  | nil =>
    have h' : ([] : List String) = texts := Option.some.inj h
    subst h'
    rfl
  | cons c rest ih =>
    rw [List.mapM_cons] at h ⊢
    cases hc : commentRaw c with
    | none => rw [hc] at h; exact Option.noConfusion h
    | some t =>
      rw [hc] at h
      cases hr : rest.mapM commentRaw with
      | none => rw [hr] at h; exact Option.noConfusion h
      | some ts =>
        rw [hr] at h
        have h' : t :: ts = texts := Option.some.inj h
        subst h'
        rw [commentLine_of_raw c t hc, ok_bind, ih ts hr, ok_bind]
        rfl

/-- C6: over every sequence of well-formed comments, `format_comments`
realizes exactly the described contract — one 1-indexed line per comment in
input order with collapsed, truncated text, joined by newlines — and the
empty sequence yields the empty string. -/
theorem C6_format_contract :
    (∀ (cs : List Val) (texts : List String), cs.mapM commentRaw = some texts →
        format_comments cs = .ok (format_described texts)) ∧
    format_comments [] = .ok "" ∧
    format_described [] = "" := by
  refine ⟨fun cs texts h => ?_, rfl, rfl⟩
  unfold format_comments
  rw [mapM_commentLine_of_raw cs texts h, ok_bind]
  have he := numberLines_enumFrom 0 texts
  rw [Nat.zero_add] at he
  rw [he]
  rfl

/-- C6 witness: the spec's example `format([{comment:"a"},{comment:"b"}])`. -/
theorem C6_format_contract_witness :
    format_comments [.vDict [("comment", .vStr "a")], .vDict [("comment", .vStr "b")]] =
      .ok "1. a\n2. b" := by
  have h := C6_format_contract.1
    [.vDict [("comment", .vStr "a")], .vDict [("comment", .vStr "b")]] ["a", "b"] rfl
  exact h.trans rfl

/-! ### C7 -/

/-- Code-point length distributes over concatenation. -/
theorem pyLen_append (a b : String) : pyLen (a ++ b) = pyLen a + pyLen b := by
  cases a with
  | mk la =>
    cases b with
    | mk lb => exact List.length_append la lb

/-- C7: a comment whose collapsed text fits in 100 code points is rendered
unchanged; a longer one is truncated to its first 97 code points plus the
three-character ellipsis marker, 100 code points in total. -/
theorem C7_truncation (s : String) :
    (pyLen (collapseNL s) ≤ 100 →
        format_comments [.vDict [("comment", .vStr s)]] =
          .ok ("1. " ++ collapseNL s)) ∧
    (pyLen (collapseNL s) > 100 →
        format_comments [.vDict [("comment", .vStr s)]] =
          .ok ("1. " ++ (pySlice (collapseNL s) 97 ++ "...")) ∧
        pyLen (pySlice (collapseNL s) 97 ++ "...") = 100) := by
  have hf : format_comments [.vDict [("comment", .vStr s)]] =
      .ok ("1. " ++ truncateComment (collapseNL s)) := rfl
  refine ⟨fun hle => ?_, fun hgt => ⟨?_, ?_⟩⟩
  · rw [hf]
    unfold truncateComment
    rw [if_neg (by omega)]
  · rw [hf]
    unfold truncateComment
    rw [if_pos hgt]
  · rw [pyLen_append]
    have h97 : pyLen (pySlice (collapseNL s) 97) = 97 := by
      unfold pySlice pyLen
      show ((collapseNL s).data.take 97).length = 97
      rw [List.length_take]
      have : 100 < (collapseNL s).data.length := hgt
      omega
    rw [h97]
    rfl

set_option maxRecDepth 4000 in
/-- C7 witness: a 150-character non-newline comment renders as its first 97
characters plus the ellipsis marker, a 100-code-point text portion. -/
theorem C7_truncation_witness :
    pyLen (collapseNL s150) > 100 ∧
    format_comments [.vDict [("comment", .vStr s150)]] =
      .ok ("1. " ++ (String.mk (List.replicate 97 'a') ++ "...")) ∧
    pyLen (String.mk (List.replicate 97 'a') ++ "...") = 100 := by
  have hgt : pyLen (collapseNL s150) > 100 := by decide
  have h := (C7_truncation s150).2 hgt
  have he : pySlice (collapseNL s150) 97 = String.mk (List.replicate 97 'a') := by decide
  refine ⟨hgt, ?_, ?_⟩
  · rw [← he]
    exact h.1
  · rw [← he]
    exact h.2

/-! ### C9 -/

/-- ASCII lower-casing of a character is idempotent. -/
theorem charToLower_idem (c : Char) : c.toLower.toLower = c.toLower := by
  by_cases h : c.toNat ≥ 65 ∧ c.toNat ≤ 90
  · have h1 : c.toLower = Char.ofNat (c.toNat + 32) := by
      show (if c.toNat ≥ 65 ∧ c.toNat ≤ 90 then Char.ofNat (c.toNat + 32) else c) =
        Char.ofNat (c.toNat + 32)
      rw [if_pos h]
    have hv : Nat.isValidChar (c.toNat + 32) := Or.inl (by omega)
    have ht : (Char.ofNat (c.toNat + 32)).toNat = c.toNat + 32 := by
      show (dite (Nat.isValidChar (c.toNat + 32)) (fun h => Char.ofNatAux (c.toNat + 32) h)
        (fun _ => ⟨0, by decide⟩)).toNat = c.toNat + 32
      rw [dif_pos hv]
      rfl
    have h2 : (Char.ofNat (c.toNat + 32)).toLower = Char.ofNat (c.toNat + 32) := by
      show (if (Char.ofNat (c.toNat + 32)).toNat ≥ 65 ∧
          (Char.ofNat (c.toNat + 32)).toNat ≤ 90 then
        Char.ofNat ((Char.ofNat (c.toNat + 32)).toNat + 32)
        else Char.ofNat (c.toNat + 32)) = Char.ofNat (c.toNat + 32)
      rw [if_neg (by rw [ht]; omega)]
    rw [h1, h2]
  · have h1 : c.toLower = c := by
      show (if c.toNat ≥ 65 ∧ c.toNat ≤ 90 then Char.ofNat (c.toNat + 32) else c) = c
      rw [if_neg h]
    rw [h1, h1]

/-- ASCII lower-casing of a string is idempotent. -/
theorem strLower_idem (s : String) : strLower (strLower s) = strLower s := by
  show String.mk (List.map Char.toLower (List.map Char.toLower s.data)) =
    String.mk (List.map Char.toLower s.data)
  rw [List.map_map,
    show (Char.toLower ∘ Char.toLower) = Char.toLower from funext charToLower_idem]

/-- Every component name the code extracts is already lower-cased. -/
theorem getComponentLower_isLower (item : Val) (a : String)
    (h : getComponentLower item = .ok a) : strLower a = a := by
  cases item with
  | vStr s => exact Except.noConfusion h
  | vInt n => exact Except.noConfusion h
  | vList l => exact Except.noConfusion h
  | vDict d =>
    have h' : (match lookupFirst d "Component" with
        | some (Val.vStr s) => Except.ok (strLower s)
        | some _ => Except.error PyErr.attributeError
        | none => (Except.error PyErr.keyError : Except PyErr String)) = .ok a := h
    cases hl : lookupFirst d "Component" with
    | none => rw [hl] at h'; exact Except.noConfusion h'
    | some v =>
      rw [hl] at h'
      cases v with
      | vStr s =>
        have hs : strLower s = a := Except.ok.inj h'
        rw [← hs]
        exact strLower_idem s
      | vInt n => exact Except.noConfusion h'
      | vList l => exact Except.noConfusion h'
      | vDict d2 => exact Except.noConfusion h'

/-- Every name produced by the component-name comprehension comes from some
record. -/
theorem mapM_getComponentLower_mem (rs : List Val) (names : List String)
    (h : rs.mapM getComponentLower = .ok names) :
    ∀ a ∈ names, ∃ item, getComponentLower item = .ok a := by
  induction rs generalizing names with
  | nil =>
    have h' : ([] : List String) = names := Except.ok.inj h
    subst h'
    intro a ha
    cases ha
  | cons it rest ih =>
    rw [List.mapM_cons] at h
    cases hg : getComponentLower it with
    | error e => rw [hg, error_bind] at h; exact Except.noConfusion h
    | ok c =>
      rw [hg, ok_bind] at h
      cases hr : rest.mapM getComponentLower with
      | error e => rw [hr, error_bind] at h; exact Except.noConfusion h
      | ok ns =>
        rw [hr, ok_bind] at h
        have h' : c :: ns = names := Except.ok.inj h
        subst h'
        intro a ha
        rcases List.mem_cons.mp ha with rfl | hmem
        · exact ⟨it, hg⟩
        · exact ih ns hr a hmem

/-- The comparison `strListLe` decides "equal or lexicographically smaller". -/
theorem strListLe_iff (as bs : List Char) :
    strListLe as bs = true ↔ (as = bs ∨ List.Lex (· < ·) as bs) := by
  induction as generalizing bs with
  | nil =>
    cases bs with
    | nil =>
      constructor
      · intro _; exact Or.inl rfl
      · intro _; rfl
    | cons b bs =>
      constructor
      · intro _; exact Or.inr List.Lex.nil
      · intro _; rfl
  | cons a as ih =>
    cases bs with
    | nil =>
      constructor
      · intro h; exact Bool.noConfusion h
      · intro h
        rcases h with heq | hlex
        · exact List.noConfusion heq
        · cases hlex
    | cons b bs =>
      show (if a < b then true else if b < a then false else strListLe as bs) =
          true ↔ _
      by_cases hab : a < b
      · rw [if_pos hab]
        constructor
        · intro _; exact Or.inr (List.Lex.rel hab)
        · intro _; rfl
      · rw [if_neg hab]
        by_cases hba : b < a
        · rw [if_pos hba]
          constructor
          · intro h; exact Bool.noConfusion h
          · intro h
            rcases h with heq | hlex
            · injection heq with h1 h2
              exact absurd (h1 ▸ hba) (lt_irrefl a)
            · cases hlex with
              | rel h' => exact absurd h' hab
              | cons h' => exact absurd hba (lt_irrefl a)
        · rw [if_neg hba]
          have heq : a = b := le_antisymm (le_of_not_lt hba) (le_of_not_lt hab)
          subst heq
          rw [ih bs]
          constructor
          · intro h
            rcases h with heq2 | hlex
            · exact Or.inl (by rw [heq2])
            · exact Or.inr (List.Lex.cons hlex)
          · intro h
            rcases h with heq2 | hlex
            · injection heq2 with h1 h2
              exact Or.inl h2
            · cases hlex with
              | rel h' => exact absurd h' hab
              | cons h' => exact Or.inr h'

/-- The comparison `pyStrLe` decides the lexicographic `≤` on strings. -/
theorem pyStrLe_iff_le (a b : String) : pyStrLe a b = true ↔ a ≤ b := by
  rw [String.le_iff_toList_le, le_iff_lt_or_eq]
  have h := strListLe_iff a.data b.data
  constructor
  · intro hle
    rcases h.mp hle with heq | hlex
    · exact Or.inr heq
    · exact Or.inl hlex
  · intro hle
    apply h.mpr
    rcases hle with hlt | heq
    · exact Or.inr hlt
    · exact Or.inl heq

/-- The sort relation of the embedding is total. -/
instance : IsTotal String (fun a b => pyStrLe a b = true) where
  total a b := by
    rw [pyStrLe_iff_le, pyStrLe_iff_le]
    exact le_total a b

/-- The sort relation of the embedding is transitive. -/
instance : IsTrans String (fun a b => pyStrLe a b = true) where
  trans a b c hab hbc := by
    rw [pyStrLe_iff_le] at hab hbc ⊢
    exact le_trans hab hbc

/-- C9: for every record list whose component extraction succeeds,
`distinct_components` is sorted ascending, duplicate-free, contains exactly
the lower-cased component names, and in particular no two of its entries
differ only by case. -/
theorem C9_distinct_sorted_nodup (rs : List Val) (names l : List String)
    (h1 : rs.mapM getComponentLower = .ok names)
    (h2 : distinct_components rs = .ok l) :
    List.Sorted (· ≤ ·) l ∧ l.Nodup ∧ (∀ s, s ∈ l ↔ s ∈ names) ∧
    (∀ a ∈ l, strLower a = a) ∧
    (∀ a ∈ l, ∀ b ∈ l, strLower a = strLower b → a = b) := by
  have hl : l = List.insertionSort (fun a b => pyStrLe a b = true) names.dedup := by
    unfold distinct_components at h2
    rw [h1, ok_bind] at h2
    exact (Except.ok.inj h2).symm
  subst hl
  have hmem : ∀ s,
      s ∈ List.insertionSort (fun a b => pyStrLe a b = true) names.dedup ↔
        s ∈ names := by
    intro s
    rw [List.mem_insertionSort, List.mem_dedup]
  have hlow : ∀ a ∈ List.insertionSort (fun a b => pyStrLe a b = true) names.dedup,
      strLower a = a := by
    intro a ha
    obtain ⟨item, hit⟩ :=
      mapM_getComponentLower_mem rs names h1 a ((hmem a).mp ha)
    exact getComponentLower_isLower item a hit
  refine ⟨?_, ?_, hmem, hlow, ?_⟩
  · exact (List.sorted_insertionSort _ _).imp (fun hab => (pyStrLe_iff_le _ _).mp hab)
  · exact ((List.perm_insertionSort _ _).nodup_iff).mpr (List.nodup_dedup names)
  · intro a ha b hb hab
    calc a = strLower a := (hlow a ha).symm
    _ = strLower b := hab
    _ = b := hlow b hb

/-- C9 witness: the two case-variants of `ui` collapse to one entry and the
result is the sorted, duplicate-free list. -/
theorem C9_distinct_sorted_nodup_witness :
    distinct_components rsThree = .ok ["auth", "ui"] ∧
    List.Sorted (· ≤ ·) ["auth", "ui"] ∧ (["auth", "ui"] : List String).Nodup := by
  have hd : distinct_components rsThree = .ok ["auth", "ui"] := rfl
  have h := C9_distinct_sorted_nodup rsThree ["ui", "auth", "ui"] ["auth", "ui"] rfl hd
  exact ⟨hd, h.1, h.2.1⟩
